import Mathlib

/-!
Shallow embedding of the lycosa crawler core (HostSession, RequestScheduler,
TemporaryObjectFactory, WorkflowTrace, Crawler pipeline glue) and proofs about
the behaviour its specification describes.

Conventions used throughout:
* `Date.now()` becomes an explicit `now : Nat` parameter; every call made
  during one synchronous JS run is frozen to that single value.
* JS falsy bookkeeping fields (`false` or `0`) are modeled as `Nat`/`Int`
  values that equal `0` exactly when the JS value is falsy, or as `Option`
  when `undefined` is involved.
* JS numbers used as counters are modeled as `Int` (they can be decremented
  below zero by the source).
* Mutation becomes explicit state passing; functions return the updated
  record.
-/

namespace Lycosa

/-! ## HostSession (src/lib/HostSession.js) -/

/-- Per-host crawling session state (HostSession constructor, lines 12-94).
The cookie jar and the robots rules are opaque external collaborators that the
operations verified here never read or write, so they are omitted from the
state. `lastRequestTime` is the JS `_lastRequestTime`, which is `false` until
a request begins; it is modeled as a `Nat` that is `0` exactly when the JS
value is falsy. -/
structure HostSession where
  creationTime : Nat
  crawlDelay : Nat
  totalRequestsCount : Int
  activeRequestsCount : Int
  awaitingRequestsCount : Int
  lastRequestTime : Nat
deriving DecidableEq, Repr

/-- Constructor `new HostSession(delay, rules)`: the expression
`delay || 1000` makes a falsy (zero) delay argument fall back to 1000. -/
def HostSession.create (delay : Nat) (now : Nat) : HostSession :=
  { creationTime := now
    crawlDelay := if delay = 0 then 1000 else delay
    totalRequestsCount := 0
    activeRequestsCount := 0
    awaitingRequestsCount := 0
    lastRequestTime := 0 }

/-- Embeds `HostSession.prototype.timeToWait` (lines 119-121): the source returns
`this._lastRequestTime ? this._lastRequestTime + this.crawlDelay - Date.now() : 0`
with no clamping of the subtraction. -/
def HostSession.timeToWait (s : HostSession) (now : Nat) : Int :=
  if s.lastRequestTime ≠ 0 then (s.lastRequestTime : Int) + s.crawlDelay - now else 0

/-- Embeds `HostSession.prototype.requestAdded` (lines 179-182). -/
def HostSession.requestAdded (s : HostSession) : HostSession :=
  { s with totalRequestsCount := s.totalRequestsCount + 1
           awaitingRequestsCount := s.awaitingRequestsCount + 1 }

/-- Embeds `HostSession.prototype.requestBegin` (lines 195-199): the assignment
`this._lastRequestTime = time || Date.now()` makes a falsy (zero) time
argument fall back to the current clock. -/
def HostSession.requestBegin (s : HostSession) (time now : Nat) : HostSession :=
  { s with lastRequestTime := if time ≠ 0 then time else now
           activeRequestsCount := s.activeRequestsCount + 1
           awaitingRequestsCount := s.awaitingRequestsCount - 1 }

/-- Embeds `HostSession.prototype.requestEnd` (lines 208-211). -/
def HostSession.requestEnd (s : HostSession) : HostSession :=
  { s with activeRequestsCount := s.activeRequestsCount - 1 }

/-- Embeds `HostSession.prototype.isEmpty` (lines 108-110). -/
def HostSession.isEmpty (s : HostSession) : Bool :=
  s.activeRequestsCount == 0 && s.awaitingRequestsCount == 0

/-- Result of the JS in-place `ips.sort()` with no comparator: the stable sort
of the strings in lexicographic order. A stable sort of a list under a total
order is unique, so insertion sort gives the same list as the engine sort. -/
def sortIps (l : List String) : List String := l.insertionSort (· ≤ ·)

/-- Embeds `HostSession.prototype.selectIp` (lines 154-173), together with its side
effect on the caller array. The JS function receives `ips` by reference and
runs `ips.sort()` in place whenever `ips.length ≥ 2`, so the pair returned
here is (selected ip, contents of the argument array after the call). A `none`
first component is the JS `undefined` return value: the source returns
`undefined` for an absent (`ips = none`) or empty argument and throws nothing.
`rand` models `Math.floor(Math.random()*(ips.length-1))`, an arbitrary natural
reduced into `[0, ips.length-2]`; JS remainder and `Int.emod` agree on the
`% 10 == 0` test used for the rotation. -/
def HostSession.selectIpEffect (s : HostSession) (ips : Option (List String)) (rand : Nat) :
    Option String × Option (List String) :=
  match ips with
  | none => (none, none)
  | some l =>
    if l.length = 0 then (none, some l)
    else if l.length = 1 then (l[0]?, some l)
    else
      let sorted := sortIps l
      let index : Nat :=
        if (s.totalRequestsCount - s.awaitingRequestsCount + 1) % 10 = 0 then
          1 + rand % (l.length - 1)
        else 0
      (sorted[index]?, some sorted)

/-- Return value of `HostSession.prototype.selectIp`. -/
def HostSession.selectIp (s : HostSession) (ips : Option (List String)) (rand : Nat) :
    Option String :=
  (s.selectIpEffect ips rand).1

/-! ## WorkflowTrace (src/lib/WorkflowTrace.js, src/lib/WorkflowError.js) -/

/-- The two error taxonomies recorded in `trace._errors`: a `WorkflowError`
carries a numeric code and a message; every other failure is a generic
error. -/
inductive CrawlError where
  | workflow (code : Int) (message : String)
  | generic (message : String)
deriving DecidableEq, Repr

/-- The slice of `WorkflowTrace` state read and written by the verified
operations. JS `false`/`undefined` initial values become `none`. -/
structure WorkflowTrace where
  ip : Option String
  ipList : Option (List String)
  session : Option HostSession
  errors : List CrawlError
deriving DecidableEq, Repr

/-- Freshly constructed trace (WorkflowTrace constructor, lines 11-110):
`ip = false`, `_ipList = false`, `_session = false`, `_errors = []`. -/
def WorkflowTrace.create : WorkflowTrace :=
  { ip := none, ipList := none, session := none, errors := [] }

/-- Embeds `WorkflowTrace.prototype.addWorkflowError` (lines 138-140). -/
def WorkflowTrace.addWorkflowError (t : WorkflowTrace) (code : Int) (message : String) :
    WorkflowTrace :=
  { t with errors := t.errors ++ [CrawlError.workflow code message] }

/-- Embeds `WorkflowTrace.prototype.addGenericError` (lines 142-144). -/
def WorkflowTrace.addGenericError (t : WorkflowTrace) (message : String) : WorkflowTrace :=
  { t with errors := t.errors ++ [CrawlError.generic message] }

/-- Embeds `WorkflowTrace.prototype.hasCachedVersion` (lines 146-148): the source
always returns false. -/
def WorkflowTrace.hasCachedVersion (_t : WorkflowTrace) : Bool := false

/-- Embeds `WorkflowTrace.prototype.setResolveResult` (lines 167-173): stores the
resolved ip array on the trace (a non-array argument throws; the model takes a
list, so that branch cannot arise). -/
def WorkflowTrace.setResolveResult (t : WorkflowTrace) (result : List String) : WorkflowTrace :=
  { t with ipList := some result }

/-- Embeds `WorkflowTrace.prototype.setSessionCreateResult` (lines 189-194) for a
well-typed session argument. -/
def WorkflowTrace.setSessionCreateResult (t : WorkflowTrace) (sess : HostSession) :
    WorkflowTrace :=
  { t with session := some sess }

/-- Embeds `WorkflowTrace.prototype.completePrepareStage` (lines 203-214). Throws when
the session is unset or when the ip list was never set; note that a JS empty
array is truthy, so an empty `_ipList` does NOT take the throwing branch.
Otherwise the stage selects the ip — sorting the shared `_ipList` array in
place through `selectIp` — and records workflow error `-7` when no ip came
back and no cached version exists. -/
def WorkflowTrace.completePrepareStage (t : WorkflowTrace) (rand : Nat) :
    Except String WorkflowTrace :=
  match t.session with
  | none => .error "Wrong value for the host session"
  | some sess =>
    match t.ipList with
    | none => .error "Wrong value for the ip list"
    | some l =>
      let r := sess.selectIpEffect (some l) rand
      let t1 := { t with ip := r.1, ipList := r.2 }
      if r.1 = none ∧ t1.hasCachedVersion = false then
        .ok (t1.addWorkflowError (-7) "No IP to fetch page from")
      else .ok t1

/-! ## Crawler pipeline glue (src/lib/Crawler.js) -/

/-- The value actually received by the trace-typed parameter of
`Crawler._behave`: the program passes a WorkflowTrace, null, or — through the
factory build path — a plain string key. -/
inductive BehaveArg where
  | trace (t : WorkflowTrace)
  | nullArg
  | str (s : String)
deriving DecidableEq, Repr

/-- Embeds the type gate at the top of `Crawler.prototype._behave`
(Crawler.js lines 348-353): a non-null argument that is not a WorkflowTrace
throws synchronously before anything else happens. -/
def Crawler.behaveCheck : BehaveArg → Except String Unit
  | .trace _ => .ok ()
  | .nullArg => .ok ()
  | .str s =>
    .error ("Trace object must be an instanceof CrawlerWorkflowTrace class: " ++ s)

/-- The build call made on a factory cache miss by the Crawler session and
scheduler factories. The factories are constructed as
`this._behave.bind(this, name)` (Crawler.js lines 138-141 and 158-161), and
`TemporaryObjectFactory.get` invokes
`this.buildAction.apply(null, Array.prototype.slice.call(arguments, 1))`
(TemporaryObjectFactory.js line 85), that is `buildAction(key, ...buildArgs)`.
The bound behavior name consumes the first `_behave` parameter, so the cache
KEY — a hostname or ip string — arrives in the trace-typed parameter and the
gate rejects it. The throw happens inside the synchronous miss path of `get`,
before the promise exists and before `__install` runs, so the cache is never
populated and every later miss throws again. -/
def Crawler.factoryBuildViaBehave (key : String) : Except String Unit :=
  Crawler.behaveCheck (BehaveArg.str key)

/-- The synchronous prefix of `Crawler.prototype._prepare` (lines 417-421).
For a trace with no inherited session the statement
`session = trace._session || this._sessions.get(1000, trace.url.hostname, trace)`
runs the factory miss path, whose build call throws synchronously. A throw
here happens during the plain call `this._prepare(trace)` inside `_execute`
(line 392), before any then or otherwise handler is attached, so it escapes
`crawl` itself uncaught; `completePrepareStage` is never reached. -/
def Crawler.prepareSync (t : WorkflowTrace) (hostname : String) : Except String Unit :=
  match t.session with
  | some _ => .ok ()
  | none => Crawler.factoryBuildViaBehave hostname

/-- In-flight registry of `Crawler._execute` (Crawler.js lines 384-405):
`requests` maps a trace id to the index of the pipeline registered for it and
`started` counts registered pipelines; each registered pipeline invokes
`fetchPageContent` at most once (`Crawler._schedule`, lines 490-509, calls it
once per admitted trace). -/
structure BatchState where
  requests : List (String × Nat)
  started : Nat
deriving DecidableEq, Repr

/-- The `urls.forEach` loop of `Crawler.prototype.crawl` (lines 249-267)
combined with the dedup branch of `_execute` (lines 384-405), keeping the
synchronous control flow of the source: on a hit the registered pending
sequence index is reused; on a miss the registration
`this._requests[trace.id] = this._prepare(trace)...` is reached only when the
right-hand side returns, and since batch traces carry no inherited session
and the in-flight map cannot already hold the id, the session-factory build
inside `_prepare` throws first, aborting the loop and `crawl` itself. `idOf`
maps a url to its trace id (sha1 of the normalized href) and `hostOf` to its
hostname; the accumulated list records, per input url in client order, the
pending sequence index it receives. -/
def Crawler.crawlLoop (idOf hostOf : String → String) (st : BatchState)
    (acc : List Nat) : List String → Except String (BatchState × List Nat)
  | [] => .ok (st, acc)
  | u :: rest =>
    match st.requests.find? (fun p => p.1 == idOf u) with
    | some p => Crawler.crawlLoop idOf hostOf st (acc ++ [p.2]) rest
    | none =>
      match Crawler.factoryBuildViaBehave (hostOf u) with
      | .error e => .error e
      | .ok _ =>
        Crawler.crawlLoop idOf hostOf
          { requests := st.requests ++ [(idOf u, st.started)], started := st.started + 1 }
          (acc ++ [st.started]) rest

/-- Embeds `Crawler.prototype.crawl` on a fresh crawler: empty in-flight map,
no pipelines registered. -/
def Crawler.crawlBatch (idOf hostOf : String → String) (urls : List String) :
    Except String (BatchState × List Nat) :=
  Crawler.crawlLoop idOf hostOf ⟨[], 0⟩ [] urls

/-! ## TemporaryObjectFactory promise semantics (src/lib/tempo/TemporaryObjectFactory.js) -/

/-- Settlement of a when.js promise: fulfilled with a value or rejected with a
reason. -/
inductive POutcome (α : Type) where
  | ok : α → POutcome α
  | err : String → POutcome α
deriving DecidableEq, Repr

/-- The factory cache keyset (`this._entries`). -/
structure FactoryCache where
  entriesKeys : List String
deriving DecidableEq, Repr

/-- Embeds `TemporaryObjectFactory.prototype.__install` (lines 155-171) observed at
the moment the installed promise settles, before any caller handler runs. The
entry is registered under the key, and the wrapping `otherwise` handler
deletes the entry on build failure and returns no value; in when.js a handler
that returns a plain value FULFILS the derived promise, so the installed
promise settles as a fulfillment with `undefined` (`ok none`), not as a
rejection. -/
def TemporaryObjectFactory.installSettle (st : FactoryCache) (key : String)
    (buildOutcome : POutcome α) : FactoryCache × POutcome (Option α) :=
  let st1 : FactoryCache := ⟨st.entriesKeys ++ [key]⟩
  match buildOutcome with
  | .ok v => (st1, .ok (some v))
  | .err _ => (⟨st1.entriesKeys.filter (fun k => k != key)⟩, .ok none)

/-- A when.js promise reduced to its settle time and outcome. -/
structure TimedOutcome (α : Type) where
  time : Nat
  out : POutcome α
deriving DecidableEq, Repr

/-- when.js `promise.ensure(f)` when `f` returns a promise: the derived
promise settles only after both the receiver and the promise returned by `f`
have settled; its outcome is the receiver outcome, except that a rejection
coming from `f` wins. The fulfillment VALUE produced by `f` is discarded. -/
def ensureChain (base : TimedOutcome α) (side : TimedOutcome β) : TimedOutcome α :=
  { time := max base.time side.time
    out := match side.out with
           | .ok _ => base.out
           | .err e => .err e }

/-- The destroying-entry branch of `TemporaryObjectFactory.prototype.get`
(lines 94-99): the returned promise is the entry deferer promise — which the
eviction resolves with the `destroyAction` outcome (`__delete`, lines
193-201) — chained with `ensure` of a re-invoked `get` with the same
arguments. `destroyP` denotes that deferer promise and `regetP` the re-invoked
get; the delete handler registered in `__delete` (lines 205-207) runs before
this chained handler, so the re-invoked get misses the cache and performs a
fresh build. -/
def TemporaryObjectFactory.getDuringDestroy (destroyP : TimedOutcome α)
    (regetP : TimedOutcome α) : TimedOutcome α :=
  ensureChain destroyP regetP

/-! ## RequestScheduler (src/unnamed/part_011, the RequestScheduler module) -/

/-- One queued request (`schedule`, lines 414-419): the url and its enqueue
time (`item.start`). The resolver of the admitted deferer is modeled by the
`AdmitResult` that `execute` returns. -/
structure QueueItem where
  url : String
  start : Nat
deriving DecidableEq, Repr

/-- One per-host queue (`schedule`, lines 405-412): the host session reference
and the ordered item list. The session is held by value; within one scheduler
the only mutations of it happen through the queue that stores it, so value
passing coincides with the JS reference discipline. -/
structure HostQueue where
  session : HostSession
  items : List QueueItem
deriving DecidableEq, Repr

/-- Per-IP request scheduler state (RequestScheduler constructor, lines
210-329). `_queues` is a JS object with non-numeric string keys, which
enumerate in insertion order; it is modeled as an association list to which
new hosts are appended and from which emptied hosts are deleted. `_timer`
holds a node timer handle that the source never resets to `false` — even
`clearTimeout` leaves the stale handle in the field — so a `Bool` records its
truthiness, monotone once set. `_timerTarget` and `_lastRequestTime` are falsy
(`false` or `0`) exactly when the model value is `0`. -/
structure RequestScheduler where
  delay : Nat
  connectionLimit : Nat
  totalRequestsCount : Int
  activeRequestsCount : Int
  awaitingRequestsCount : Int
  connections : Int
  lastRequestTime : Nat
  timer : Bool
  timerTarget : Int
  onConnection : Bool
  queues : List (String × HostQueue)
deriving DecidableEq, Repr

/-- Constructor `new RequestScheduler(delay, connectionLimit)`: the
expressions `delay || 500` and `connectionLimit || 4` make falsy (zero)
arguments fall back to the defaults. -/
def RequestScheduler.create (delay connectionLimit : Nat) : RequestScheduler :=
  { delay := if delay = 0 then 500 else delay
    connectionLimit := if connectionLimit = 0 then 4 else connectionLimit
    totalRequestsCount := 0
    activeRequestsCount := 0
    awaitingRequestsCount := 0
    connections := 0
    lastRequestTime := 0
    timer := false
    timerTarget := 0
    onConnection := false
    queues := [] }

/-- Embeds `RequestScheduler.prototype.isEmpty` (lines 331-333). -/
def RequestScheduler.isEmpty (s : RequestScheduler) : Bool :=
  s.activeRequestsCount == 0 && s.awaitingRequestsCount == 0

/-- Embeds `RequestScheduler.prototype.availableConnectionsCount` (lines 364-366). -/
def RequestScheduler.availableConnectionsCount (s : RequestScheduler) : Int :=
  (s.connectionLimit : Int) - s.connections

/-- Embeds `RequestScheduler.prototype.nextTime` (lines 353-355): undefined when the
timer target is falsy, otherwise the clamped remaining wait. -/
def RequestScheduler.nextTime (s : RequestScheduler) (now : Nat) : Option Int :=
  if s.timerTarget ≠ 0 then some (max (s.timerTarget - now) 0) else none

/-- Embeds `RequestScheduler.prototype._schedule` (lines 468-486). A `none` delay is
a call with no argument and installs the `_onConnection` continuation. A
negative nonzero delay throws in the source before mutating anything (no
caller produces one); the model returns the state unchanged there. When a
timer exists, `clearTimeout` runs and `_timerTarget` is reset, but the stale
handle stays in `_timer`. A zero delay registers a `process.nextTick` run of
`_execute` and records `_timerTarget = Date.now()` without touching `_timer`;
a positive delay arms a fresh timer. -/
def RequestScheduler.armSchedule (s : RequestScheduler) (delay : Option Int) (now : Nat) :
    RequestScheduler :=
  match delay with
  | some d =>
    if d < 0 then s
    else
      let s1 := if s.timer then { s with timerTarget := 0 } else s
      if d = 0 then { s1 with timerTarget := (now : Int) }
      else { s1 with timerTarget := (now : Int) + d, timer := true }
  | none =>
    let s1 := if s.timer then { s with timerTarget := 0 } else s
    { s1 with onConnection := true }

/-- Embeds `RequestScheduler.prototype.requestEnd` (lines 380-387). The queued
`process.nextTick(this._onConnection)` run of `_execute` appears in the
transition system as a separate later tick event. -/
def RequestScheduler.requestEnd (s : RequestScheduler) : RequestScheduler :=
  let s1 := { s with connections := s.connections - 1
                     activeRequestsCount := s.activeRequestsCount - 1 }
  if s1.onConnection then { s1 with onConnection := false } else s1

/-- Enqueue half of `RequestScheduler.prototype.schedule` (lines 400-424):
queue selection or creation, the item push, `requestAdded` on the queue
session, and the counter updates. For a new host the passed session is stored;
for an existing host the stored session receives `requestAdded` (in JS both
are the same object). -/
def RequestScheduler.enqueue (s : RequestScheduler) (session : HostSession)
    (hostname url : String) (now : Nat) : RequestScheduler :=
  let item : QueueItem := ⟨url, now⟩
  let queues1 :=
    if (s.queues.find? (fun p => p.1 == hostname)).isSome then
      s.queues.map (fun p =>
        if p.1 = hostname then (p.1, ⟨p.2.session.requestAdded, p.2.items ++ [item]⟩) else p)
    else
      s.queues ++ [(hostname, ⟨session.requestAdded, [item]⟩)]
  { s with queues := queues1
           totalRequestsCount := s.totalRequestsCount + 1
           awaitingRequestsCount := s.awaitingRequestsCount + 1 }

/-- Embeds `RequestScheduler.prototype.schedule` (lines 400-457): enqueue, then the
timer restart check. The gate is the literal source condition
`this._timer || !this._onConnection`; inside, `hostDelay` reads
`session.timeToWait()` on the PASSED session and the timer is recreated when
`schedulerDelay === undefined || schedulerDelay > 0 && hostDelay <
schedulerDelay`. -/
def RequestScheduler.schedule (s : RequestScheduler) (session : HostSession)
    (hostname url : String) (now : Nat) : RequestScheduler :=
  let s1 := s.enqueue session hostname url now
  if s1.timer || !s1.onConnection then
    let hostDelay := session.timeToWait now
    match s1.nextTime now with
    | none => s1.armSchedule (some (max 0 hostDelay)) now
    | some sd =>
      if 0 < sd ∧ hostDelay < sd then s1.armSchedule (some (max 0 hostDelay)) now else s1
  else s1

/-- The per-IP delay guard computed at the top of `_execute` (line 497):
`this._lastRequestTime ? this._lastRequestTime + this.delay - Date.now() : -1`. -/
def RequestScheduler.execDelay (s : RequestScheduler) (now : Nat) : Int :=
  if s.lastRequestTime ≠ 0 then (s.lastRequestTime : Int) + s.delay - now else -1

/-- The strict-improvement test used by both accumulators of the `_execute`
scan loop: an undefined best is always beaten, otherwise the candidate must be
strictly smaller. -/
def beatsBound (time : Int) : Option Int → Bool
  | none => true
  | some b => time < b

/-- Loop state of the `_execute` queue scan (lines 525-550): the selected
queue (`host`, `queueToExecute`), its score (`queueScore`) and the minimum
strictly positive wait seen (`timeToWait`). -/
structure ScanResult where
  selected : Option (String × HostQueue)
  score : Option Int
  next : Option Int
deriving DecidableEq, Repr

/-- One iteration of the `_execute` scan loop (lines 526-550): a queue with
non-positive `timeToWait` that strictly beats the current score becomes the
selected queue; otherwise a strictly positive time that strictly beats the
current wake-up candidate replaces it. -/
def scanStep (now : Nat) (acc : ScanResult) (p : String × HostQueue) : ScanResult :=
  let time := p.2.session.timeToWait now
  if time ≤ 0 ∧ beatsBound time acc.score then
    { acc with selected := some p, score := some time }
  else if 0 < time ∧ beatsBound time acc.next then
    { acc with next := some time }
  else acc

/-- The whole `for (name in this._queues)` scan of `_execute`, iterating in
queue insertion order. -/
def scanQueues (qs : List (String × HostQueue)) (now : Nat) : ScanResult :=
  qs.foldl (scanStep now) ⟨none, none, none⟩

/-- Observable effect of one admission inside `_execute` (lines 554-573): the
host whose queue was served, the admitted item, the session after
`requestBegin`, and the value handed to the admitted-signal resolver
(`this._lastRequestTime - item.start`). -/
structure AdmitResult where
  host : String
  item : QueueItem
  sessionAfter : HostSession
  waited : Int
deriving DecidableEq, Repr

/-- Embeds `RequestScheduler.prototype._execute` (lines 495-598), with every
`Date.now()` of the run frozen to `now` and the resolver call surfaced as the
returned `AdmitResult`. The inner `items = []` case cannot occur in states
whose queues all hold non-empty item lists (the reachability invariant proved
below); the JS code would fail there and the model returns the state
unchanged. After the optional admission, `limit == 0` installs the connection
continuation, otherwise the timer is re-armed for
`max(delay, timeToWait)` (or `delay` when no positive wait was seen). -/
def RequestScheduler.execute (s : RequestScheduler) (now : Nat) :
    RequestScheduler × Option AdmitResult :=
  if s.availableConnectionsCount ≤ 0 then (s.armSchedule none now, none)
  else if 0 < s.execDelay now then (s.armSchedule (some (s.execDelay now)) now, none)
  else if s.awaitingRequestsCount = 0 then (s, none)
  else
    let scan := scanQueues s.queues now
    let nextWait : Int :=
      match scan.next with
      | none => (s.delay : Int)
      | some t => max (s.delay : Int) t
    match scan.selected with
    | none => (s.armSchedule (some nextWait) now, none)
    | some (host, q) =>
      match q.items with
      | [] => (s, none)
      | item :: rest =>
        let sessionAfter := q.session.requestBegin now now
        let queues1 :=
          if rest = [] then s.queues.filter (fun p => p.1 != host)
          else s.queues.map (fun p => if p.1 = host then (host, ⟨sessionAfter, rest⟩) else p)
        let s1 := { s with queues := queues1
                           connections := s.connections + 1
                           awaitingRequestsCount := s.awaitingRequestsCount - 1
                           activeRequestsCount := s.activeRequestsCount + 1
                           lastRequestTime := now }
        let s2 := if s.availableConnectionsCount - 1 = 0 then s1.armSchedule none now
                  else s1.armSchedule (some nextWait) now
        (s2, some ⟨host, item, sessionAfter, (now : Int) - item.start⟩)

/-- One interleaving step of the scheduler API: a `schedule` call, a timer or
nextTick driven `_execute` tick, or a `requestEnd` notification. The node
event loop serializes these, so an execution is a finite sequence of such
steps. -/
inductive SchedulerStep : RequestScheduler → RequestScheduler → Prop
  | schedule (session : HostSession) (hostname url : String) (now : Nat)
      {s : RequestScheduler} :
      SchedulerStep s (s.schedule session hostname url now)
  | tick (now : Nat) {s : RequestScheduler} :
      SchedulerStep s (s.execute now).1
  | requestEnd {s : RequestScheduler} : SchedulerStep s s.requestEnd

/-- States reachable from a freshly constructed scheduler by any interleaving
of the three events. -/
def SchedulerReachable (d cl : Nat) (s : RequestScheduler) : Prop :=
  Relation.ReflTransGen SchedulerStep (RequestScheduler.create d cl) s

/-- Specification-side characterization of the queue the admission rule should
pick, written from the spec text: the first queue in iteration order whose
session wait is non-positive and is a minimum among the non-positive waits.
Recursive form: keep the later minimum unless the current queue is
non-positive and not beaten strictly, which makes ties resolve to the earlier
queue. -/
def firstMinNonpos (now : Nat) : List (String × HostQueue) → Option (String × HostQueue)
  | [] => none
  | p :: rest =>
    match firstMinNonpos now rest with
    | none => if p.2.session.timeToWait now ≤ 0 then some p else none
    | some q =>
      if p.2.session.timeToWait now ≤ 0 ∧
          p.2.session.timeToWait now ≤ q.2.session.timeToWait now then some p
      else some q

/-- Merge of an already-selected queue with the best of the remaining list,
used to relate the scan fold to `firstMinNonpos`: a later queue wins only by a
strictly smaller wait. -/
def mergeSel (now : Nat) :
    Option (String × HostQueue) → Option (String × HostQueue) → Option (String × HostQueue)
  | none, m => m
  | some p, none => some p
  | some p, some q =>
    if q.2.session.timeToWait now < p.2.session.timeToWait now then some q else some p

/-- Coherence of the scan accumulator: the score is exactly the wait of the
selected queue and is non-positive. -/
def ScoreInv (now : Nat) (acc : ScanResult) : Prop :=
  match acc.selected, acc.score with
  | none, none => True
  | some p, some sc => sc = p.2.session.timeToWait now ∧ p.2.session.timeToWait now ≤ 0
  | _, _ => False

/-! ## Concrete states used by claim witnesses and counterexamples -/

/-- A session with one awaiting request that has never begun one. -/
def sessionW1 : HostSession :=
  { creationTime := 0, crawlDelay := 1000, totalRequestsCount := 1,
    activeRequestsCount := 0, awaitingRequestsCount := 1, lastRequestTime := 0 }

def queueW1 : HostQueue := ⟨sessionW1, [⟨"http://a.example/x", 40⟩]⟩

/-- A scheduler holding one single-item queue and no open connections. -/
def schedulerW1 : RequestScheduler :=
  { delay := 500, connectionLimit := 4, totalRequestsCount := 1,
    activeRequestsCount := 0, awaitingRequestsCount := 1, connections := 0,
    lastRequestTime := 0, timer := false, timerTarget := 0, onConnection := false,
    queues := [("a.example", queueW1)] }

def sessionW2 : HostSession := HostSession.create 1000 0

/-- The state after one schedule call on a fresh scheduler (a reachable
state). -/
def schedulerW2 : RequestScheduler :=
  (RequestScheduler.create 500 4).schedule sessionW2 "example.com" "http://example.com/" 10

/-- A scheduler in the configuration claim C3 quantifies over: a pending
connection continuation, no timer ever armed, and a timer target in the
future. -/
def schedulerC3 : RequestScheduler :=
  { delay := 500, connectionLimit := 4, totalRequestsCount := 1,
    activeRequestsCount := 1, awaitingRequestsCount := 0, connections := 4,
    lastRequestTime := 50, timer := false, timerTarget := 200, onConnection := true,
    queues := [] }

/-- A session whose one request began at time 1500 (crawl delay 1000). -/
def sessionC4 : HostSession :=
  ((HostSession.create 1000 0).requestAdded).requestBegin 1500 1500

/-! ## Helper lemmas -/

theorem armSchedule_queues (s : RequestScheduler) (d : Option Int) (now : Nat) :
    (s.armSchedule d now).queues = s.queues := by
  cases d <;> simp only [RequestScheduler.armSchedule] <;> split_ifs <;> rfl

theorem armSchedule_connections (s : RequestScheduler) (d : Option Int) (now : Nat) :
    (s.armSchedule d now).connections = s.connections := by
  cases d <;> simp only [RequestScheduler.armSchedule] <;> split_ifs <;> rfl

theorem armSchedule_counters (s : RequestScheduler) (d : Option Int) (now : Nat) :
    (s.armSchedule d now).activeRequestsCount = s.activeRequestsCount ∧
    (s.armSchedule d now).awaitingRequestsCount = s.awaitingRequestsCount ∧
    (s.armSchedule d now).lastRequestTime = s.lastRequestTime ∧
    (s.armSchedule d now).connectionLimit = s.connectionLimit := by
  cases d <;> simp only [RequestScheduler.armSchedule] <;> split_ifs <;> exact ⟨rfl, rfl, rfl, rfl⟩

theorem enqueue_timerFields (s : RequestScheduler) (sess : HostSession)
    (hostname url : String) (now : Nat) :
    (s.enqueue sess hostname url now).timer = s.timer ∧
    (s.enqueue sess hostname url now).timerTarget = s.timerTarget ∧
    (s.enqueue sess hostname url now).onConnection = s.onConnection :=
  ⟨rfl, rfl, rfl⟩

theorem enqueue_nextTime (s : RequestScheduler) (sess : HostSession)
    (hostname url : String) (now now2 : Nat) :
    (s.enqueue sess hostname url now).nextTime now2 = s.nextTime now2 := by
  simp only [RequestScheduler.nextTime, (enqueue_timerFields s sess hostname url now).2.1]

/-- One scan step keeps the accumulator coherent. -/
theorem scanStep_scoreInv (now : Nat) (acc : ScanResult) (p : String × HostQueue)
    (hacc : ScoreInv now acc) : ScoreInv now (scanStep now acc p) := by
  simp only [scanStep]
  split_ifs with h1 h2
  · exact ⟨rfl, h1.1⟩
  · exact hacc
  · exact hacc

/-- Key algebraic step: merging after one scan step equals merging with the
cons case of the first-minimum computation. -/
theorem scanStep_mergeSel (now : Nat) (p : String × HostQueue) (acc : ScanResult)
    (m : Option (String × HostQueue)) (hacc : ScoreInv now acc) :
    mergeSel now (scanStep now acc p).selected m =
      mergeSel now acc.selected
        (match m with
         | none => if p.2.session.timeToWait now ≤ 0 then some p else none
         | some q =>
           if p.2.session.timeToWait now ≤ 0 ∧
               p.2.session.timeToWait now ≤ q.2.session.timeToWait now then some p
           else some q) := by
  rcases acc with ⟨sels, scores, nexts⟩
  cases sels with
  | none =>
    have hscore : scores = none := by
      cases scores with
      | none => rfl
      | some sc => exact absurd hacc (by simp [ScoreInv])
    subst hscore
    cases m with
    | none =>
      by_cases hp : p.2.session.timeToWait now ≤ 0
      · simp [scanStep, beatsBound, mergeSel, hp]
      · have hsel : (scanStep now ⟨none, none, nexts⟩ p).selected = none := by
          simp only [scanStep, beatsBound]
          split_ifs with h1 h2
          · exact absurd h1.1 hp
          · rfl
          · rfl
        rw [hsel]
        simp [mergeSel, hp]
    | some q =>
      by_cases hp : p.2.session.timeToWait now ≤ 0
      · by_cases hpq : p.2.session.timeToWait now ≤ q.2.session.timeToWait now
        · simp [scanStep, beatsBound, mergeSel, hp, hpq, not_lt.mpr hpq]
        · simp [scanStep, beatsBound, mergeSel, hp, hpq, not_le.mp hpq]
      · have hsel : (scanStep now ⟨none, none, nexts⟩ p).selected = none := by
          simp only [scanStep, beatsBound]
          split_ifs with h1 h2
          · exact absurd h1.1 hp
          · rfl
          · rfl
        rw [hsel]
        simp [mergeSel, hp]
  | some sel =>
    cases scores with
    | none => exact absurd hacc (by simp [ScoreInv])
    | some sc =>
      have hsc : sc = sel.2.session.timeToWait now := hacc.1
      have hsel0 : sel.2.session.timeToWait now ≤ 0 := hacc.2
      subst hsc
      by_cases hbeat : p.2.session.timeToWait now ≤ 0 ∧
          p.2.session.timeToWait now < sel.2.session.timeToWait now
      · -- The current queue strictly beats the accumulator.
        have hstep : (scanStep now ⟨some sel, some (sel.2.session.timeToWait now), nexts⟩ p).selected
            = some p := by
          simp [scanStep, beatsBound, hbeat.1, hbeat.2]
        rw [hstep]
        cases m with
        | none =>
          simp [mergeSel, hbeat.1, hbeat.2]
        | some q =>
          by_cases hpq : p.2.session.timeToWait now ≤ q.2.session.timeToWait now
          · simp [mergeSel, hbeat.1, hbeat.2, hpq, not_lt.mpr hpq]
          · have hq : q.2.session.timeToWait now < p.2.session.timeToWait now := not_le.mp hpq
            simp [mergeSel, hbeat.1, hpq, hq, lt_trans hq hbeat.2]
      · -- The accumulator survives the current queue.
        have hstep : (scanStep now ⟨some sel, some (sel.2.session.timeToWait now), nexts⟩ p).selected
            = some sel := by
          simp only [scanStep, beatsBound]
          split_ifs with h1 h2
          · exact absurd ⟨h1.1, by simpa using h1.2⟩ hbeat
          · rfl
          · rfl
        rw [hstep]
        cases m with
        | none =>
          by_cases hp : p.2.session.timeToWait now ≤ 0
          · have hge : sel.2.session.timeToWait now ≤ p.2.session.timeToWait now := by
              rcases not_and_or.mp hbeat with h | h
              · exact absurd hp h
              · exact not_lt.mp h
            simp [mergeSel, hp, not_lt.mpr hge]
          · simp [mergeSel, hp]
        | some q =>
          by_cases hpq : p.2.session.timeToWait now ≤ 0 ∧
              p.2.session.timeToWait now ≤ q.2.session.timeToWait now
          · have hge : sel.2.session.timeToWait now ≤ p.2.session.timeToWait now := by
              rcases not_and_or.mp hbeat with h | h
              · exact absurd hpq.1 h
              · exact not_lt.mp h
            have hqs : ¬ q.2.session.timeToWait now < sel.2.session.timeToWait now := by
              exact not_lt.mpr (le_trans hge hpq.2)
            have hps : ¬ p.2.session.timeToWait now < sel.2.session.timeToWait now :=
              not_lt.mpr hge
            simp [mergeSel, hpq, hqs, hps]
          · simp [mergeSel, hpq]

/-- The scan fold preserves score coherence and selects the merge of the
accumulator with the first minimum of the remaining queues. -/
theorem scan_fold_selected (now : Nat) (qs : List (String × HostQueue)) :
    ∀ acc : ScanResult, ScoreInv now acc →
      ScoreInv now (qs.foldl (scanStep now) acc) ∧
      (qs.foldl (scanStep now) acc).selected =
        mergeSel now acc.selected (firstMinNonpos now qs) := by
  induction qs with
  | nil =>
    intro acc hacc
    refine ⟨hacc, ?_⟩
    cases h : acc.selected <;> simp [firstMinNonpos, mergeSel, h]
  | cons p rest ih =>
    intro acc hacc
    obtain ⟨hinv, hsel⟩ := ih (scanStep now acc p) (scanStep_scoreInv now acc p hacc)
    refine ⟨hinv, ?_⟩
    rw [List.foldl_cons, hsel, scanStep_mergeSel now p acc _ hacc]
    rfl

/-- The selected queue of the full scan is the first minimum over the
non-positive session waits. -/
theorem scanQueues_selected (qs : List (String × HostQueue)) (now : Nat) :
    (scanQueues qs now).selected = firstMinNonpos now qs := by
  have h := scan_fold_selected now qs ⟨none, none, none⟩ (by trivial)
  simpa [scanQueues, mergeSel] using h.2

theorem firstMinNonpos_none {now : Nat} {qs : List (String × HostQueue)}
    (h : firstMinNonpos now qs = none) :
    ∀ q ∈ qs, 0 < q.2.session.timeToWait now := by
  induction qs with
  | nil => intro q hq; exact absurd hq (List.not_mem_nil q)
  | cons a tl ih =>
    intro q hq
    rw [firstMinNonpos] at h
    cases hm : firstMinNonpos now tl with
    | none =>
      rw [hm] at h
      dsimp only at h
      by_cases h1 : a.2.session.timeToWait now ≤ 0
      · rw [if_pos h1] at h
        exact absurd h (by simp)
      · rcases List.mem_cons.mp hq with rfl | hq2
        · exact not_le.mp h1
        · exact ih hm q hq2
    | some r =>
      rw [hm] at h
      dsimp only at h
      by_cases h1 : a.2.session.timeToWait now ≤ 0 ∧
          a.2.session.timeToWait now ≤ r.2.session.timeToWait now
      · rw [if_pos h1] at h
        exact absurd h (by simp)
      · rw [if_neg h1] at h
        exact absurd h (by simp)

theorem firstMinNonpos_mem {now : Nat} {qs : List (String × HostQueue)}
    {p : String × HostQueue} (h : firstMinNonpos now qs = some p) : p ∈ qs := by
  induction qs generalizing p with
  | nil => simp [firstMinNonpos] at h
  | cons a tl ih =>
    rw [firstMinNonpos] at h
    cases hm : firstMinNonpos now tl with
    | none =>
      rw [hm] at h
      dsimp only at h
      by_cases h1 : a.2.session.timeToWait now ≤ 0
      · rw [if_pos h1] at h
        cases Option.some.inj h
        exact List.mem_cons_self _ _
      · rw [if_neg h1] at h
        exact absurd h (by simp)
    | some r =>
      rw [hm] at h
      dsimp only at h
      by_cases h1 : a.2.session.timeToWait now ≤ 0 ∧
          a.2.session.timeToWait now ≤ r.2.session.timeToWait now
      · rw [if_pos h1] at h
        cases Option.some.inj h
        exact List.mem_cons_self _ _
      · rw [if_neg h1] at h
        cases Option.some.inj h
        exact List.mem_cons_of_mem a (ih hm)

theorem firstMinNonpos_nonpos {now : Nat} {qs : List (String × HostQueue)}
    {p : String × HostQueue} (h : firstMinNonpos now qs = some p) :
    p.2.session.timeToWait now ≤ 0 := by
  induction qs generalizing p with
  | nil => simp [firstMinNonpos] at h
  | cons a tl ih =>
    rw [firstMinNonpos] at h
    cases hm : firstMinNonpos now tl with
    | none =>
      rw [hm] at h
      dsimp only at h
      by_cases h1 : a.2.session.timeToWait now ≤ 0
      · rw [if_pos h1] at h
        cases Option.some.inj h
        exact h1
      · rw [if_neg h1] at h
        exact absurd h (by simp)
    | some r =>
      rw [hm] at h
      dsimp only at h
      by_cases h1 : a.2.session.timeToWait now ≤ 0 ∧
          a.2.session.timeToWait now ≤ r.2.session.timeToWait now
      · rw [if_pos h1] at h
        cases Option.some.inj h
        exact h1.1
      · rw [if_neg h1] at h
        cases Option.some.inj h
        exact ih hm

theorem firstMinNonpos_min {now : Nat} {qs : List (String × HostQueue)}
    {p : String × HostQueue} (h : firstMinNonpos now qs = some p) :
    ∀ q ∈ qs, q.2.session.timeToWait now ≤ 0 →
      p.2.session.timeToWait now ≤ q.2.session.timeToWait now := by
  induction qs generalizing p with
  | nil => simp [firstMinNonpos] at h
  | cons a tl ih =>
    intro q hq hqt
    rw [firstMinNonpos] at h
    cases hm : firstMinNonpos now tl with
    | none =>
      rw [hm] at h
      dsimp only at h
      by_cases h1 : a.2.session.timeToWait now ≤ 0
      · rw [if_pos h1] at h
        cases Option.some.inj h
        rcases List.mem_cons.mp hq with rfl | hq2
        · exact le_refl _
        · exact absurd hqt (not_le.mpr (firstMinNonpos_none hm q hq2))
      · rw [if_neg h1] at h
        exact absurd h (by simp)
    | some r =>
      rw [hm] at h
      dsimp only at h
      by_cases h1 : a.2.session.timeToWait now ≤ 0 ∧
          a.2.session.timeToWait now ≤ r.2.session.timeToWait now
      · rw [if_pos h1] at h
        cases Option.some.inj h
        rcases List.mem_cons.mp hq with rfl | hq2
        · exact le_refl _
        · exact le_trans h1.2 (ih hm q hq2 hqt)
      · rw [if_neg h1] at h
        cases Option.some.inj h
        rcases List.mem_cons.mp hq with rfl | hq2
        · rcases not_and_or.mp h1 with h2 | h2
          · exact absurd hqt h2
          · exact le_of_lt (not_le.mp h2)
        · exact ih hm q hq2 hqt

theorem firstMinNonpos_first {now : Nat} {qs : List (String × HostQueue)}
    {p : String × HostQueue} (h : firstMinNonpos now qs = some p) :
    ∃ l1 l2, qs = l1 ++ p :: l2 ∧
      ∀ q ∈ l1, 0 < q.2.session.timeToWait now ∨
        p.2.session.timeToWait now < q.2.session.timeToWait now := by
  induction qs generalizing p with
  | nil => simp [firstMinNonpos] at h
  | cons a tl ih =>
    rw [firstMinNonpos] at h
    cases hm : firstMinNonpos now tl with
    | none =>
      rw [hm] at h
      dsimp only at h
      by_cases h1 : a.2.session.timeToWait now ≤ 0
      · rw [if_pos h1] at h
        cases Option.some.inj h
        exact ⟨[], tl, rfl, by simp⟩
      · rw [if_neg h1] at h
        exact absurd h (by simp)
    | some r =>
      rw [hm] at h
      dsimp only at h
      by_cases h1 : a.2.session.timeToWait now ≤ 0 ∧
          a.2.session.timeToWait now ≤ r.2.session.timeToWait now
      · rw [if_pos h1] at h
        cases Option.some.inj h
        exact ⟨[], tl, rfl, by simp⟩
      · rw [if_neg h1] at h
        cases Option.some.inj h
        obtain ⟨l1, l2, heq, hfirst⟩ := ih hm
        refine ⟨a :: l1, l2, by rw [heq]; rfl, ?_⟩
        intro q hq
        rcases List.mem_cons.mp hq with rfl | hq2
        · rcases not_and_or.mp h1 with h2 | h2
          · exact Or.inl (not_le.mp h2)
          · exact Or.inr (not_le.mp h2)
        · exact hfirst q hq2

/-- The two state invariants of claim C2: connection cap and non-empty
queues. -/
def SchedInv (s : RequestScheduler) : Prop :=
  s.connections ≤ (s.connectionLimit : Int) ∧ ∀ p ∈ s.queues, p.2.items ≠ []

theorem schedInv_armSchedule (s : RequestScheduler) (d : Option Int) (now : Nat)
    (h : SchedInv s) : SchedInv (s.armSchedule d now) := by
  refine ⟨?_, ?_⟩
  · rw [armSchedule_connections, (armSchedule_counters s d now).2.2.2]
    exact h.1
  · rw [armSchedule_queues]
    exact h.2

theorem schedInv_enqueue (s : RequestScheduler) (sess : HostSession)
    (hostname url : String) (now : Nat) (h : SchedInv s) :
    SchedInv (s.enqueue sess hostname url now) := by
  obtain ⟨hc, hq⟩ := h
  refine ⟨hc, ?_⟩
  intro p hp
  simp only [RequestScheduler.enqueue] at hp
  split_ifs at hp with hex
  · rcases List.mem_map.mp hp with ⟨r, hrmem, hreq⟩
    by_cases he : r.1 = hostname
    · rw [if_pos he] at hreq
      subst hreq
      simp
    · rw [if_neg he] at hreq
      subst hreq
      exact hq r hrmem
  · rcases List.mem_append.mp hp with h1 | h1
    · exact hq p h1
    · rw [List.mem_singleton.mp h1]
      simp

theorem schedInv_schedule (s : RequestScheduler) (sess : HostSession)
    (hostname url : String) (now : Nat) (h : SchedInv s) :
    SchedInv (s.schedule sess hostname url now) := by
  have hbase := schedInv_enqueue s sess hostname url now h
  unfold RequestScheduler.schedule
  dsimp only
  split_ifs with hgate
  · cases hnt : (s.enqueue sess hostname url now).nextTime now with
    | none => exact schedInv_armSchedule _ _ _ hbase
    | some sd =>
      dsimp only
      split_ifs with hcmp
      · exact schedInv_armSchedule _ _ _ hbase
      · exact hbase
  · exact hbase

theorem schedInv_requestEnd (s : RequestScheduler) (h : SchedInv s) :
    SchedInv s.requestEnd := by
  obtain ⟨hc, hq⟩ := h
  unfold RequestScheduler.requestEnd
  dsimp only
  split_ifs <;> refine ⟨?_, hq⟩ <;>
    · show s.connections - 1 ≤ (s.connectionLimit : Int)
      omega

theorem schedInv_execute (s : RequestScheduler) (now : Nat) (h : SchedInv s) :
    SchedInv (s.execute now).1 := by
  obtain ⟨hc, hq⟩ := h
  simp only [RequestScheduler.execute]
  split_ifs with h1 h2 h3 h4
  · exact schedInv_armSchedule _ _ _ ⟨hc, hq⟩
  · exact schedInv_armSchedule _ _ _ ⟨hc, hq⟩
  · exact ⟨hc, hq⟩
  all_goals
    cases hsel : (scanQueues s.queues now).selected with
    | none =>
      dsimp only
      exact schedInv_armSchedule _ _ _ ⟨hc, hq⟩
    | some hostq =>
      obtain ⟨host, q⟩ := hostq
      dsimp only
      cases hitems : q.items with
      | nil => exact ⟨hc, hq⟩
      | cons item rest =>
        dsimp only
        have hconn : s.connections + 1 ≤ (s.connectionLimit : Int) := by
          simp only [RequestScheduler.availableConnectionsCount] at h1
          omega
        have hqueues1 : ∀ p ∈
            (if rest = [] then s.queues.filter (fun p => p.1 != host)
             else s.queues.map
               (fun p => if p.1 = host then
                 (host, (⟨q.session.requestBegin now now, rest⟩ : HostQueue)) else p)),
            p.2.items ≠ [] := by
          split_ifs with hrest
          · intro p hp
            exact hq p (List.mem_of_mem_filter hp)
          · intro p hp
            rcases List.mem_map.mp hp with ⟨r, hrmem, hreq⟩
            by_cases he : r.1 = host
            · rw [if_pos he] at hreq
              subst hreq
              exact hrest
            · rw [if_neg he] at hreq
              subst hreq
              exact hq r hrmem
        exact schedInv_armSchedule _ _ _ ⟨hconn, hqueues1⟩

/-- Any reachable scheduler state satisfies both invariants. -/
theorem schedInv_reachable {d cl : Nat} {s : RequestScheduler}
    (h : SchedulerReachable d cl s) : SchedInv s := by
  induction h with
  | refl =>
    refine ⟨?_, ?_⟩
    · simp only [RequestScheduler.create]
      exact Int.natCast_nonneg _
    · intro p hp
      simp [RequestScheduler.create] at hp
  | tail hsteps hstep ih =>
    cases hstep with
    | schedule sess hostname url now => exact schedInv_schedule _ _ _ _ _ ih
    | tick now => exact schedInv_execute _ _ ih
    | requestEnd => exact schedInv_requestEnd _ ih

/-! ## Claim theorems -/

/-- C4 counterexample: a session that began its request at time 1500 with
crawl delay 1000, observed at time 3000, reports timeToWait = -500, strictly
negative — contradicting the claimed clamp `max(0, ...)`. -/
theorem c4_counterexample :
    sessionC4.timeToWait 3000 = -500 ∧ sessionC4.timeToWait 3000 < 0 := by
  decide

/-- C4 (amended): timeToWait returns 0 when no request has ever begun (a
fresh session), and returns lastRequestTime + crawlDelay - now — a value that
can be negative, with no clamping — once a request has begun. -/
theorem c4_timeToWait_amended (d ct now : Nat) (s : HostSession)
    (hs : s.lastRequestTime ≠ 0) :
    (HostSession.create d ct).timeToWait now = 0 ∧
    s.timeToWait now = (s.lastRequestTime : Int) + s.crawlDelay - now := by
  constructor
  · simp [HostSession.create, HostSession.timeToWait]
  · simp [HostSession.timeToWait, hs]

theorem c4_timeToWait_amended_witness :
    (1500 : Nat) ≠ 0 ∧
    ((HostSession.create 1000 0).timeToWait 3000 = 0 ∧
     sessionC4.timeToWait 3000 =
       (sessionC4.lastRequestTime : Int) + sessionC4.crawlDelay - 3000) :=
  ⟨by decide, c4_timeToWait_amended 1000 0 3000 sessionC4 (by decide)⟩

/-- C5: evaluation of the code at the failing input. selectIp with an absent
or empty ips list returns the JS value undefined (none) instead of throwing:
the repository test (the host-session spec, `expect(function(){
session.selectIp([])}).toThrow()`) expects a throw here and fails against this
code. -/
theorem c5_selectIp_empty_returns_undefined :
    (HostSession.create 0 0).selectIp none 0 = none ∧
    (HostSession.create 0 0).selectIp (some []) 0 = none := by
  decide

/-- C6: evaluation of the code at the failing input of the repository test
(resolveHost overridden to return []). The prepare stage throws synchronously
out of crawl at the session-factory acquisition — the hostname string lands
in the trace-typed parameter of `_behave` — so the trace never reaches
`completePrepareStage`: no WorkflowError -7 is ever recorded and no trace is
delivered to the builder. -/
theorem c6_dns_empty_prepare_throws :
    Crawler.prepareSync (WorkflowTrace.create.setResolveResult []) "google.com" =
      .error "Trace object must be an instanceof CrawlerWorkflowTrace class: google.com" ∧
    (WorkflowTrace.create.setResolveResult []).errors = [] := by
  constructor
  · rfl
  · rfl

/-- C7: evaluation of the code at the failing input. When the build promise
rejects (the repository test rejects createScheduler with Error("test")), the
entry is removed from the cache before settlement, BUT the pending value
returned by get settles as a fulfillment with undefined — the otherwise
handler swallows the rejection instead of rethrowing — so the caller observes
a success, not the rejection the claim (and the repository test, which
expects message "test" on the trace) requires. -/
theorem c7_build_failure_swallowed :
    TemporaryObjectFactory.installSettle ⟨[]⟩ "127.0.0.1"
        (POutcome.err "test" : POutcome Nat) = (⟨[]⟩, POutcome.ok none) := by
  decide

/-- C8 counterexample: a get issued while the destroy is in flight settles
with the DESTROY outcome, not with the freshly built instance: when.js ensure
discards the fulfillment value of its handler (the re-invoked get). -/
theorem c8_counterexample :
    (TemporaryObjectFactory.getDuringDestroy
        (⟨1100, POutcome.ok "destroy-signal-value"⟩ : TimedOutcome String)
        ⟨1100, POutcome.ok "fresh-instance"⟩).out = POutcome.ok "destroy-signal-value" ∧
    (TemporaryObjectFactory.getDuringDestroy
        (⟨1100, POutcome.ok "destroy-signal-value"⟩ : TimedOutcome String)
        ⟨1100, POutcome.ok "fresh-instance"⟩).out ≠ POutcome.ok "fresh-instance" := by
  decide

/-- C8 (amended): a get on a destroying entry resolves only after both the
destroy and the re-invoked get (which performs the fresh build) have settled,
but it yields the destroy action outcome rather than the freshly built
instance; the fresh instance is only visible to subsequent gets through the
cache. -/
theorem c8_get_during_destroy_amended {α : Type} (destroyP regetP : TimedOutcome α)
    (v : α) (hre : regetP.out = POutcome.ok v) :
    destroyP.time ≤ (TemporaryObjectFactory.getDuringDestroy destroyP regetP).time ∧
    regetP.time ≤ (TemporaryObjectFactory.getDuringDestroy destroyP regetP).time ∧
    (TemporaryObjectFactory.getDuringDestroy destroyP regetP).out = destroyP.out := by
  unfold TemporaryObjectFactory.getDuringDestroy ensureChain
  refine ⟨le_max_left _ _, le_max_right _ _, ?_⟩
  rw [hre]

theorem c8_get_during_destroy_amended_witness :
    (⟨1100, POutcome.ok "fresh-instance"⟩ : TimedOutcome String).out =
        POutcome.ok "fresh-instance" ∧
    ((1100 : Nat) ≤ (TemporaryObjectFactory.getDuringDestroy
        (⟨1100, POutcome.ok "destroy-signal-value"⟩ : TimedOutcome String)
        ⟨1100, POutcome.ok "fresh-instance"⟩).time ∧
     (1100 : Nat) ≤ (TemporaryObjectFactory.getDuringDestroy
        (⟨1100, POutcome.ok "destroy-signal-value"⟩ : TimedOutcome String)
        ⟨1100, POutcome.ok "fresh-instance"⟩).time ∧
     (TemporaryObjectFactory.getDuringDestroy
        (⟨1100, POutcome.ok "destroy-signal-value"⟩ : TimedOutcome String)
        ⟨1100, POutcome.ok "fresh-instance"⟩).out =
       (⟨1100, POutcome.ok "destroy-signal-value"⟩ : TimedOutcome String).out) :=
  ⟨rfl, c8_get_during_destroy_amended
    (⟨1100, POutcome.ok "destroy-signal-value"⟩ : TimedOutcome String)
    ⟨1100, POutcome.ok "fresh-instance"⟩ "fresh-instance" rfl⟩

/-- C9: evaluation of the code at the failing input. crawl([u, u]) throws
synchronously out of the first call of `_execute` — the session-factory build
inside `_prepare` rejects the hostname key — before
`this._requests[trace.id]` is ever assigned, so zero result entries reach the
builder and `fetchPageContent` is never invoked; the claimed two-entry dedup
outcome never occurs. -/
theorem c9_crawl_dedup_throws (idOf hostOf : String → String) (u : String) :
    Crawler.crawlBatch idOf hostOf [u, u] =
      .error ("Trace object must be an instanceof CrawlerWorkflowTrace class: "
        ++ hostOf u) := by
  simp [Crawler.crawlBatch, Crawler.crawlLoop, Crawler.factoryBuildViaBehave,
    Crawler.behaveCheck]

/-- C2: at every observation point reachable by any interleaving of schedule
calls, execute ticks and requestEnd notifications, the connections in use
never exceed the connection limit, and every hostname present in the queue
map holds a non-empty item list. -/
theorem c2_scheduler_invariants (d cl : Nat) (s : RequestScheduler)
    (h : SchedulerReachable d cl s) :
    s.connections ≤ (s.connectionLimit : Int) ∧ ∀ p ∈ s.queues, p.2.items ≠ [] :=
  schedInv_reachable h

theorem c2_scheduler_invariants_witness :
    SchedulerReachable 500 4 schedulerW2 ∧
    (schedulerW2.connections ≤ (schedulerW2.connectionLimit : Int) ∧
     ∀ p ∈ schedulerW2.queues, p.2.items ≠ []) :=
  ⟨Relation.ReflTransGen.single
      (SchedulerStep.schedule sessionW2 "example.com" "http://example.com/" 10),
   c2_scheduler_invariants 500 4 schedulerW2
     (Relation.ReflTransGen.single
       (SchedulerStep.schedule sessionW2 "example.com" "http://example.com/" 10))⟩

/-- C3 counterexample: in a state where a connection continuation is pending
and no timer is armed, with a future scheduled target (remaining wait 100 at
now = 100) and a new session whose timeToWait is 0 < 100, schedule performs NO
cancellation and NO re-arming — the timer fields are returned untouched —
because the gate `this._timer || !this._onConnection` is false. The claim
asserts the re-arming happens in exactly this state. -/
theorem c3_counterexample :
    (schedulerC3.nextTime 100 = some 100 ∧
     (HostSession.create 1000 0).timeToWait 100 = 0 ∧
     schedulerC3.timer = false ∧ schedulerC3.onConnection = true) ∧
    ((schedulerC3.schedule (HostSession.create 1000 0) "h2.example" "http://h2.example/" 100).timerTarget
        = 200 ∧
     (schedulerC3.schedule (HostSession.create 1000 0) "h2.example" "http://h2.example/" 100).timer
        = false ∧
     (schedulerC3.schedule (HostSession.create 1000 0) "h2.example" "http://h2.example/" 100).onConnection
        = true) := by
  decide

/-- C3 (amended): the re-arming on schedule is gated on
`_timer || !_onConnection` — the timer is armed OR no connection continuation
is pending. Under that gate, when nextTime() is undefined, or positive and
strictly above the scheduled session timeToWait, schedule re-arms for
max(0, timeToWait): the state equals `_schedule(max 0 hostDelay)` applied
after the enqueue, the target becomes `now` for a non-positive wait and
`now + wait` (with a live timer) for a positive one. With a pending
connection continuation and no armed timer, schedule never re-arms. -/
theorem c3_schedule_rearm_amended (s : RequestScheduler) (session : HostSession)
    (hostname url : String) (now : Nat)
    (hgate : s.timer = true ∨ s.onConnection = false)
    (hcmp : s.nextTime now = none ∨
      ∃ sd, s.nextTime now = some sd ∧ 0 < sd ∧ session.timeToWait now < sd) :
    s.schedule session hostname url now =
      (s.enqueue session hostname url now).armSchedule
        (some (max 0 (session.timeToWait now))) now ∧
    (session.timeToWait now ≤ 0 →
      (s.schedule session hostname url now).timerTarget = (now : Int)) ∧
    (0 < session.timeToWait now →
      (s.schedule session hostname url now).timerTarget =
        (now : Int) + session.timeToWait now ∧
      (s.schedule session hostname url now).timer = true) := by
  have heq : s.schedule session hostname url now =
      (s.enqueue session hostname url now).armSchedule
        (some (max 0 (session.timeToWait now))) now := by
    unfold RequestScheduler.schedule
    dsimp only
    have hgateb : ((s.enqueue session hostname url now).timer
        || !(s.enqueue session hostname url now).onConnection) = true := by
      rw [(enqueue_timerFields s session hostname url now).1,
        (enqueue_timerFields s session hostname url now).2.2]
      rcases hgate with h | h <;> rw [h] <;> simp
    rw [if_pos hgateb, enqueue_nextTime]
    rcases hcmp with h | ⟨sd, hsd, hpos, hlt⟩
    · rw [h]
    · rw [hsd]
      dsimp only
      rw [if_pos ⟨hpos, hlt⟩]
  refine ⟨heq, ?_, ?_⟩
  · intro hle
    rw [heq]
    have hmax : max 0 (session.timeToWait now) = 0 := max_eq_left hle
    rw [hmax]
    unfold RequestScheduler.armSchedule
    dsimp only
    rw [if_neg (by omega)]
    split_ifs <;> rfl
  · intro hlt
    rw [heq]
    have hmax : max 0 (session.timeToWait now) = session.timeToWait now :=
      max_eq_right (le_of_lt hlt)
    rw [hmax]
    unfold RequestScheduler.armSchedule
    dsimp only
    rw [if_neg (show ¬ session.timeToWait now < 0 by omega),
      if_neg (show ¬ session.timeToWait now = 0 by omega)]
    exact ⟨rfl, rfl⟩

theorem c3_schedule_rearm_amended_witness :
    ((RequestScheduler.create 500 4).timer = true ∨
      (RequestScheduler.create 500 4).onConnection = false) ∧
    ((RequestScheduler.create 500 4).nextTime 7 = none ∨
      ∃ sd, (RequestScheduler.create 500 4).nextTime 7 = some sd ∧ 0 < sd ∧
        sessionW2.timeToWait 7 < sd) ∧
    ((RequestScheduler.create 500 4).schedule sessionW2 "example.com" "http://example.com/" 7 =
        ((RequestScheduler.create 500 4).enqueue sessionW2 "example.com" "http://example.com/" 7).armSchedule
          (some (max 0 (sessionW2.timeToWait 7))) 7 ∧
     (sessionW2.timeToWait 7 ≤ 0 →
       ((RequestScheduler.create 500 4).schedule sessionW2 "example.com" "http://example.com/" 7).timerTarget
         = (7 : Int)) ∧
     (0 < sessionW2.timeToWait 7 →
       ((RequestScheduler.create 500 4).schedule sessionW2 "example.com" "http://example.com/" 7).timerTarget
           = (7 : Int) + sessionW2.timeToWait 7 ∧
       ((RequestScheduler.create 500 4).schedule sessionW2 "example.com" "http://example.com/" 7).timer
           = true)) :=
  ⟨Or.inr rfl, Or.inl (by decide),
   c3_schedule_rearm_amended (RequestScheduler.create 500 4) sessionW2
     "example.com" "http://example.com/" 7 (Or.inr rfl) (Or.inl (by decide))⟩

/-- C10: for an ip list of length at least 2, selectIp sorts the caller array
in place: the stored list after the call is the lexicographically sorted
permutation of the input, and completePrepareStage — which hands the shared
`_ipList` reference to selectIp — therefore leaves the sorted array on the
trace. -/
theorem c10_selectIp_sorts_in_place (s : HostSession) (t : WorkflowTrace)
    (l : List String) (rand : Nat) (hlen : 2 ≤ l.length)
    (hses : t.session = some s) (hips : t.ipList = some l) :
    (s.selectIpEffect (some l) rand).2 = some (sortIps l) ∧
    (sortIps l).Sorted (· ≤ ·) ∧ (sortIps l).Perm l ∧
    ∃ t1, t.completePrepareStage rand = .ok t1 ∧ t1.ipList = some (sortIps l) := by
  have heff : (s.selectIpEffect (some l) rand).2 = some (sortIps l) := by
    simp only [HostSession.selectIpEffect]
    rw [if_neg (by omega), if_neg (by omega)]
  refine ⟨heff, List.sorted_insertionSort _ l, List.perm_insertionSort _ l, ?_⟩
  unfold WorkflowTrace.completePrepareStage
  rw [hses, hips]
  dsimp only
  split_ifs with h
  · exact ⟨_, rfl, by simp [WorkflowTrace.addWorkflowError, heff]⟩
  · exact ⟨_, rfl, by simp [heff]⟩

theorem c10_selectIp_sorts_in_place_witness :
    ((2 : Nat) ≤ (["10.0.0.9", "10.0.0.1"] : List String).length ∧
     ({ ip := none, ipList := some ["10.0.0.9", "10.0.0.1"], session := some sessionW2,
        errors := [] } : WorkflowTrace).session = some sessionW2 ∧
     ({ ip := none, ipList := some ["10.0.0.9", "10.0.0.1"], session := some sessionW2,
        errors := [] } : WorkflowTrace).ipList = some ["10.0.0.9", "10.0.0.1"]) ∧
    ((sessionW2.selectIpEffect (some ["10.0.0.9", "10.0.0.1"]) 0).2 =
        some (sortIps ["10.0.0.9", "10.0.0.1"]) ∧
     (sortIps ["10.0.0.9", "10.0.0.1"]).Sorted (· ≤ ·) ∧
     (sortIps ["10.0.0.9", "10.0.0.1"]).Perm ["10.0.0.9", "10.0.0.1"] ∧
     ∃ t1, ({ ip := none, ipList := some ["10.0.0.9", "10.0.0.1"],
              session := some sessionW2, errors := [] } : WorkflowTrace).completePrepareStage 0
          = .ok t1 ∧
       t1.ipList = some (sortIps ["10.0.0.9", "10.0.0.1"])) :=
  ⟨⟨by decide, rfl, rfl⟩,
   c10_selectIp_sorts_in_place sessionW2
     ({ ip := none, ipList := some ["10.0.0.9", "10.0.0.1"], session := some sessionW2,
        errors := [] } : WorkflowTrace)
     ["10.0.0.9", "10.0.0.1"] 0 (by decide) rfl rfl⟩

/-- C1: on an admission tick of a scheduler with an available connection,
whose per-IP delay has elapsed and whose awaiting count is positive, and in
which some queue has a non-positive session wait, `_execute` admits exactly
the head item of the first queue in iteration order attaining the minimum
non-positive timeToWait (ties favour the earlier queue); it deletes that
queue when it becomes empty, applies requestBegin(now) to its session,
increments the active count and the connections in use, decrements the
awaiting count, sets lastRequestTime = now and resolves the admitted signal
with now minus the enqueue time of the item. -/
theorem c1_execute_admits_first_min (s : RequestScheduler) (now : Nat)
    (host : String) (q : HostQueue) (item : QueueItem) (rest : List QueueItem)
    (havail : 0 < s.availableConnectionsCount)
    (hdelay : s.execDelay now ≤ 0)
    (hwait : 0 < s.awaitingRequestsCount)
    (hsel : firstMinNonpos now s.queues = some (host, q))
    (hitems : q.items = item :: rest) :
    ((host, q) ∈ s.queues ∧ q.session.timeToWait now ≤ 0 ∧
      (∀ p ∈ s.queues, p.2.session.timeToWait now ≤ 0 →
        q.session.timeToWait now ≤ p.2.session.timeToWait now) ∧
      (∃ l1 l2, s.queues = l1 ++ (host, q) :: l2 ∧
        ∀ p ∈ l1, 0 < p.2.session.timeToWait now ∨
          q.session.timeToWait now < p.2.session.timeToWait now)) ∧
    ∃ s2, s.execute now =
        (s2, some ⟨host, item, q.session.requestBegin now now, (now : Int) - item.start⟩) ∧
      s2.connections = s.connections + 1 ∧
      s2.activeRequestsCount = s.activeRequestsCount + 1 ∧
      s2.awaitingRequestsCount = s.awaitingRequestsCount - 1 ∧
      s2.lastRequestTime = now ∧
      (rest = [] → ∀ q2, (host, q2) ∉ s2.queues) ∧
      (rest ≠ [] →
        (host, (⟨q.session.requestBegin now now, rest⟩ : HostQueue)) ∈ s2.queues) := by
  refine ⟨⟨firstMinNonpos_mem hsel, firstMinNonpos_nonpos hsel,
    firstMinNonpos_min hsel, firstMinNonpos_first hsel⟩, ?_⟩
  have hg1 : ¬ s.availableConnectionsCount ≤ 0 := not_le.mpr havail
  have hg2 : ¬ 0 < s.execDelay now := not_lt.mpr hdelay
  have hg3 : ¬ s.awaitingRequestsCount = 0 := by omega
  simp only [RequestScheduler.execute]
  rw [if_neg hg1, if_neg hg2, if_neg hg3, scanQueues_selected, hsel]
  dsimp only
  rw [hitems]
  dsimp only
  by_cases h4 : s.availableConnectionsCount - 1 = 0
  · rw [if_pos h4]
    refine ⟨_, rfl, ?_, ?_, ?_, ?_, ?_, ?_⟩
    · rw [armSchedule_connections]
    · rw [(armSchedule_counters _ _ _).1]
    · rw [(armSchedule_counters _ _ _).2.1]
    · rw [(armSchedule_counters _ _ _).2.2.1]
    · intro hrest q2 hmem
      rw [armSchedule_queues] at hmem
      dsimp only at hmem
      rw [if_pos hrest] at hmem
      rcases List.mem_filter.mp hmem with ⟨hmem2, hpred⟩
      simp at hpred
    · intro hrest
      rw [armSchedule_queues]
      dsimp only
      rw [if_neg hrest]
      have hmm := List.mem_map_of_mem
        (fun p : String × HostQueue => if p.1 = host then
          (host, (⟨q.session.requestBegin now now, rest⟩ : HostQueue)) else p)
        (firstMinNonpos_mem hsel)
      simpa using hmm
  · rw [if_neg h4]
    refine ⟨_, rfl, ?_, ?_, ?_, ?_, ?_, ?_⟩
    · rw [armSchedule_connections]
    · rw [(armSchedule_counters _ _ _).1]
    · rw [(armSchedule_counters _ _ _).2.1]
    · rw [(armSchedule_counters _ _ _).2.2.1]
    · intro hrest q2 hmem
      rw [armSchedule_queues] at hmem
      dsimp only at hmem
      rw [if_pos hrest] at hmem
      rcases List.mem_filter.mp hmem with ⟨hmem2, hpred⟩
      simp at hpred
    · intro hrest
      rw [armSchedule_queues]
      dsimp only
      rw [if_neg hrest]
      have hmm := List.mem_map_of_mem
        (fun p : String × HostQueue => if p.1 = host then
          (host, (⟨q.session.requestBegin now now, rest⟩ : HostQueue)) else p)
        (firstMinNonpos_mem hsel)
      simpa using hmm

theorem c1_execute_admits_first_min_witness :
    (0 < schedulerW1.availableConnectionsCount ∧
     schedulerW1.execDelay 100 ≤ 0 ∧
     0 < schedulerW1.awaitingRequestsCount ∧
     firstMinNonpos 100 schedulerW1.queues = some ("a.example", queueW1) ∧
     queueW1.items = ⟨"http://a.example/x", 40⟩ :: []) ∧
    ((("a.example", queueW1) ∈ schedulerW1.queues ∧
      queueW1.session.timeToWait 100 ≤ 0 ∧
      (∀ p ∈ schedulerW1.queues, p.2.session.timeToWait 100 ≤ 0 →
        queueW1.session.timeToWait 100 ≤ p.2.session.timeToWait 100) ∧
      (∃ l1 l2, schedulerW1.queues = l1 ++ ("a.example", queueW1) :: l2 ∧
        ∀ p ∈ l1, 0 < p.2.session.timeToWait 100 ∨
          queueW1.session.timeToWait 100 < p.2.session.timeToWait 100)) ∧
     ∃ s2, schedulerW1.execute 100 =
         (s2, some ⟨"a.example", ⟨"http://a.example/x", 40⟩,
           queueW1.session.requestBegin 100 100, (100 : Int) - 40⟩) ∧
       s2.connections = schedulerW1.connections + 1 ∧
       s2.activeRequestsCount = schedulerW1.activeRequestsCount + 1 ∧
       s2.awaitingRequestsCount = schedulerW1.awaitingRequestsCount - 1 ∧
       s2.lastRequestTime = 100 ∧
       (([] : List QueueItem) = [] → ∀ q2, ("a.example", q2) ∉ s2.queues) ∧
       (([] : List QueueItem) ≠ [] →
         ("a.example",
           (⟨queueW1.session.requestBegin 100 100, []⟩ : HostQueue)) ∈ s2.queues)) :=
  ⟨⟨by decide, by decide, by decide, by decide, rfl⟩,
   c1_execute_admits_first_min schedulerW1 100 "a.example" queueW1
     ⟨"http://a.example/x", 40⟩ [] (by decide) (by decide) (by decide) (by decide) rfl⟩

end Lycosa
